import Mathlib

/-!
# Verification of the docker-machine-api task engine

Shallow embedding, in Lean 4, of the core task-execution engine of the
`docker-machine-api` repository (source files `docker_machine_api/cl_api.py`,
`docker_machine/cl_api.py` and the original `docker-machine/cl_api.py`),
together with theorems settling the specification's claims about it.

Python strings are modelled as `List Char`, Python dicts as association
lists with unique update semantics (`pyUpdate`), and the relevant Python
`str` methods (`lstrip`, `strip`, `split`, `splitlines`, `startswith`)
are translated character by character.
-/

namespace DMA

/-- Python dict from str to str, as an association list.  `pyUpdate`
below gives `d[k] = v` semantics. -/
abbrev EnvMap := List (List Char × List Char)

/-- Models Python `d[k] = v` on a dict: if the key is present its value is
replaced in place, otherwise the pair is appended at the end. -/
def pyUpdate (env : EnvMap) (k v : List Char) : EnvMap :=
  if env.any (fun p => p.1 = k) then
    env.map (fun p => if p.1 = k then (k, v) else p)
  else
    env ++ [(k, v)]

/-- Models Python `d.get(k)` / `k in d` lookup: first entry with the key. -/
def envLookup : EnvMap → List Char → Option (List Char)
  | [], _ => none
  | p :: rest, k => if p.1 = k then some p.2 else envLookup rest k

/-- Models Python `s.lstrip(chars)`: drop leading characters that are
members of the character set `chars`. -/
def pyLStrip (chars : List Char) (s : List Char) : List Char :=
  s.dropWhile (fun c => chars.contains c)

/-- Models Python `s.strip(chars)`: drop leading and trailing characters
that are members of the character set `chars`. -/
def pyStrip (chars : List Char) (s : List Char) : List Char :=
  (((s.dropWhile (fun c => chars.contains c)).reverse.dropWhile
      (fun c => chars.contains c)).reverse)

/-- Models Python `s.split(sep)` for a single-character separator:
split at every occurrence, keeping empty segments. -/
def pySplit (sep : Char) : List Char → List (List Char)
  | [] => [[]]
  | c :: rest =>
    if c = sep then
      [] :: pySplit sep rest
    else
      match pySplit sep rest with
      | h :: t => (c :: h) :: t
      | [] => [[c]]

/-- Models Python `s.startswith(p)` (`leadsWith p s` = `s.startswith(p)`). -/
def leadsWith : List Char → List Char → Bool
  | [], _ => true
  | _ :: _, [] => false
  | p :: ps, c :: cs => p = c && leadsWith ps cs

/-- The line-boundary characters recognised by Python `str.splitlines`. -/
def isLineBoundary (c : Char) : Bool :=
  c = '\n' || c = '\r' || c = '\x0b' || c = '\x0c' || c = '\x1c' ||
  c = '\x1d' || c = '\x1e' || c = '\x85' || c = '\u2028' || c = '\u2029'

/-- Worker for `splitlines`; `acc` holds the current line reversed.
A `'\r'` immediately followed by `'\n'` counts as one boundary. -/
def splitlinesAux : List Char → List Char → List (List Char)
  | [], acc => if acc.isEmpty then [] else [acc.reverse]
  | '\r' :: '\n' :: rest, acc => acc.reverse :: splitlinesAux rest []
  | c :: rest, acc =>
    if isLineBoundary c then
      acc.reverse :: splitlinesAux rest []
    else
      splitlinesAux rest (c :: acc)

/-- Models Python `s.splitlines()`: split at line boundaries (with `\r\n`
counting as a single boundary), no trailing empty line. -/
def splitlines (s : List Char) : List (List Char) :=
  splitlinesAux s []

/-- The character set `'export'` that `line.lstrip('export')` strips. -/
def exportChars : List Char := ['e', 'x', 'p', 'o', 'r', 't']

/-- Models the per-line body of `DockerMachine._parse_env_text`
(docker_machine_api/cl_api.py lines 231-239; identical in
`DockerMachine.__parseEnvText` of docker-machine/cl_api.py):
if the line starts with `'export'`, lstrip the `'export'` character set,
split on `'='`, and when exactly two words result, assign
`output[words[0].strip(' ')] = words[1].strip('" ')`. -/
def parseEnvLine (env : EnvMap) (line : List Char) : EnvMap :=
  if leadsWith exportChars line then
    match pySplit '=' (pyLStrip exportChars line) with
    | [w0, w1] => pyUpdate env (pyStrip [' '] w0) (pyStrip ['"', ' '] w1)
    | _ => env
  else
    env

/-- Models `DockerMachine._parse_env_text(input, env)`
(docker_machine_api/cl_api.py lines 224-241): fold the per-line update
over `input.splitlines()`, starting from (and mutating) `env`. -/
def parseEnvText (input : List Char) (env : EnvMap) : EnvMap :=
  (splitlines input).foldl parseEnvLine env

/-! ## The shape of a canonical `export NAME="value"` line

`wfName`/`wfValue` make the informal phrase "a line of the form
`export NAME="value"`" precise: the name is a nonempty token without
spaces, `=`, quotes or line boundaries; the quoted value contains no `=`
or line boundary and does not begin or end with a quote or space (those
delimiters belong to the syntax, not the value). -/

/-- A well-formed environment-variable name for a canonical export line. -/
def wfName (n : List Char) : Bool :=
  !n.isEmpty &&
  n.all (fun c => c ≠ ' ' && c ≠ '=' && c ≠ '"' && !isLineBoundary c)

/-- A well-formed quoted value for a canonical export line. -/
def wfValue (v : List Char) : Bool :=
  v.all (fun c => c ≠ '=' && !isLineBoundary c) &&
  (match v.head? with
   | some c => c ≠ '"' && c ≠ ' '
   | none => true) &&
  (match v.getLast? with
   | some c => c ≠ '"' && c ≠ ' '
   | none => true)

/-- The canonical line `export NAME="value"`. -/
def mkExportLine (n v : List Char) : List Char :=
  "export ".toList ++ n ++ '=' :: '"' :: (v ++ ['"'])

/-- Decides whether a line is of the canonical form `export NAME="value"`
with a well-formed name and value, i.e. whether it decomposes as
`mkExportLine n v` with `wfName n` and `wfValue v`. -/
def isExportForm (l : List Char) : Bool :=
  leadsWith "export ".toList l &&
  (let rest := l.drop 7
   let n := rest.takeWhile (fun c => c ≠ '=')
   match rest.dropWhile (fun c => c ≠ '=') with
   | '=' :: '"' :: tail =>
     match tail.getLast? with
     | some '"' => wfName n && wfValue tail.dropLast
     | _ => false
   | _ => false)

/-! ## StreamReader ANSI-escape stripping

`DockerStreamReader` (docker_machine_api/cl_api.py lines 26-43) removes
terminal control sequences from every line it pushes, via
`ansi_escape = re.compile(r'(\x9B|\x1B\[)[0-?]*[ -\/]*[@-~]')` and
`ansi_escape.sub('', text)`.  Because the three character classes
`[0-?]` (0x30-0x3F), `[ -\\/]` (0x20-0x2F) and `[@-~]` (0x40-0x7E) are
pairwise disjoint, the greedy backtracking semantics of `re` coincide
with simple maximal munch, which is what `matchEscape` implements;
`re.sub` replaces the leftmost non-overlapping matches in one
left-to-right pass, which is what `ansiGo` implements. -/

/-- The CSI single-character introducer `\x9B`. -/
def csiChar : Char := '\x9b'

/-- The escape character `\x1B`. -/
def escChar : Char := '\x1b'

/-- Membership in the regex class `[0-?]` (parameter bytes). -/
def isParamByte (c : Char) : Bool := 0x30 ≤ c.toNat && c.toNat ≤ 0x3f

/-- Membership in the regex class `[ -\\/]` (intermediate bytes). -/
def isInterByte (c : Char) : Bool := 0x20 ≤ c.toNat && c.toNat ≤ 0x2f

/-- Membership in the regex class `[@-~]` (final bytes). -/
def isFinalByte (c : Char) : Bool := 0x40 ≤ c.toNat && c.toNat ≤ 0x7e

/-- Match the regex tail `[0-?]*[ -\/]*[@-~]` at the front of `cs`,
returning the rest of the input after the match. -/
def matchCSIBody (cs : List Char) : Option (List Char) :=
  match (cs.dropWhile isParamByte).dropWhile isInterByte with
  | c :: rest => if isFinalByte c then some rest else none
  | [] => none

/-- Match the whole pattern `(\x9B|\x1B\[)[0-?]*[ -\/]*[@-~]` at the
front of `cs`, returning the rest of the input after the match. -/
def matchEscape (cs : List Char) : Option (List Char) :=
  match cs with
  | [] => none
  | c :: rest =>
    if c = csiChar then matchCSIBody rest
    else if c = escChar then
      match rest with
      | c2 :: rest2 => if c2 = '[' then matchCSIBody rest2 else none
      | [] => none
    else none

theorem matchCSIBody_length {cs rest : List Char}
    (h : matchCSIBody cs = some rest) : rest.length < cs.length + 1 := by
  unfold matchCSIBody at h
  split at h
  case h_1 c rest2 heq =>
    split at h
    case isTrue =>
      have h1 : (cs.dropWhile isParamByte).length ≤ cs.length :=
        (List.dropWhile_sublist _).length_le
      have h2 : ((cs.dropWhile isParamByte).dropWhile isInterByte).length ≤
          (cs.dropWhile isParamByte).length := (List.dropWhile_sublist _).length_le
      rw [heq] at h2
      simp only [Option.some.injEq] at h
      subst h
      simp only [List.length_cons] at h2
      omega
    case isFalse => exact absurd h (by simp)
  case h_2 => exact absurd h (by simp)

theorem matchEscape_length {cs rest : List Char}
    (h : matchEscape cs = some rest) : rest.length < cs.length := by
  unfold matchEscape at h
  match cs, h with
  | c :: cs1, h =>
    simp only at h
    split at h
    · have := matchCSIBody_length h
      simp only [List.length_cons]
      omega
    · split at h
      · split at h
        case h_1 c2 rest2 =>
          split at h
          · have := matchCSIBody_length h
            simp only [List.length_cons]
            omega
          · exact absurd h (by simp)
        case h_2 => exact absurd h (by simp)
      · exact absurd h (by simp)

/-- One left-to-right substitution pass with explicit fuel (the fuel is
always at least the length of the remaining input, so it never runs
out).  At each position, remove the leftmost match and continue after
it, or keep the character and move one position right. -/
def ansiGo : Nat → List Char → List Char
  | 0, cs => cs
  | _ + 1, [] => []
  | fuel + 1, c :: rest =>
    match matchEscape (c :: rest) with
    | some rest2 => ansiGo fuel rest2
    | none => c :: ansiGo fuel rest

/-- Models `DockerStreamReader._format_text(text)`
(docker_machine_api/cl_api.py lines 39-43):
`ansi_escape.sub('', text)`, removing every leftmost non-overlapping
match of `(\x9B|\x1B\[)[0-?]*[ -\/]*[@-~]` in one pass. -/
def formatText (cs : List Char) : List Char :=
  ansiGo cs.length cs

/-- A full-string match of the ANSI escape pattern: the pattern matches
at the front and consumes the whole string. -/
def isFullEscMatch (m : List Char) : Bool :=
  match matchEscape m with
  | some [] => true
  | _ => false

/-- The string contains a raw ANSI escape sequence: some substring is a
full match of the pattern. -/
def containsEscSeq (cs : List Char) : Prop :=
  ∃ a m b, cs = a ++ m ++ b ∧ isFullEscMatch m = true

/-! ## Task lifecycle: `DockerMachineTask.call`

Model of `DockerMachineTask.call` (docker_machine_api/cl_api.py lines
145-189).  The external process is abstracted by a poll trace: one
`PollStep` per iteration of the `while True` loop, recording the lines
drained by `_process_output`, the result of `process.poll()`, and the
elapsed wall time (in seconds) at the `datetime.now() - start > timeout`
check.  `finalLines` is what the final `_finish_output` drain yields.
The classified outcome replaces the Python control flow: a normal
return is `succeeded`, `raise DockerMachineError(self, 'Task call
failed.')` is `failed` (carrying the task name and exit code via the
task object), and `raise DockerMachineError(self, 'Task call timeout.')`
is `timedOut`. -/

/-- Terminal classification of a task, as observed by the caller of
`DockerMachineTask.call`. -/
inductive Outcome where
  | succeeded : Outcome
  | failed : String → Int → Outcome
  | timedOut : String → Outcome
deriving DecidableEq

/-- The configuration of a `DockerMachineTask` relevant to `call`:
name, `allowed_to_fail`, whether an `output_cb` was registered
(equivalently, whether `self._output` captures lines), and the
timeout in seconds. -/
structure TaskCfg where
  name : String
  allowedToFail : Bool
  hasCb : Bool
  timeout : Nat
deriving DecidableEq

/-- One iteration of the poll loop: the lines drained by
`_process_output` (stdout and stderr merged in drain order), the
`process.poll()` result, and the elapsed wall time at the timeout
check. -/
structure PollStep where
  lines : List (List Char)
  rc : Option Int
  elapsed : Nat
deriving DecidableEq

/-- Everything `call` does that is observable: the classification, the
captured output lines, the list of arguments `output_cb` was invoked
with, whether the process was killed, and whether the final
`_finish_output` drain ran. -/
structure CallResult where
  outcome : Outcome
  captured : List (List Char)
  cbCalls : List (List Char)
  killed : Bool
  finalDrain : Bool
deriving DecidableEq

/-- `os.linesep.join(lines)` on POSIX: join with `'\n'`. -/
def joinLines (ls : List (List Char)) : List Char :=
  List.intercalate ['\n'] ls

/-- The poll loop of `DockerMachineTask.call` (lines 159-189): drain
output, poll the return code; on a return code, classify `succeeded`
(code 0 or allowed to fail: final drain, then callback) or `failed`
(immediate raise, no final drain, no callback); otherwise on timeout
kill the process, final-drain, and classify `timedOut`; otherwise sleep
and loop.  `none` means the trace ended with the process still
running. -/
def callGo (t : TaskCfg) (finalLines : List (List Char)) :
    List PollStep → List (List Char) → Option CallResult
  | [], _ => none
  | p :: rest, acc =>
    let acc2 := acc ++ p.lines
    match p.rc with
    | some r =>
      if r = 0 ∨ t.allowedToFail = true then
        some { outcome := Outcome.succeeded
               captured := acc2 ++ finalLines
               cbCalls :=
                 if t.hasCb then [joinLines (acc2 ++ finalLines)] else []
               killed := false
               finalDrain := true }
      else
        some { outcome := Outcome.failed t.name r
               captured := acc2
               cbCalls := []
               killed := false
               finalDrain := false }
    | none =>
      if t.timeout < p.elapsed then
        some { outcome := Outcome.timedOut t.name
               captured := acc2 ++ finalLines
               cbCalls := []
               killed := true
               finalDrain := true }
      else
        callGo t finalLines rest acc2

/-- `DockerMachineTask.call` on a given poll trace, starting with an
empty capture buffer. -/
def callTask (t : TaskCfg) (finalLines : List (List Char))
    (trace : List PollStep) : Option CallResult :=
  callGo t finalLines trace []

/-- The lines drained before a given point of the trace, in order. -/
def traceLines (ps : List PollStep) : List (List Char) :=
  (ps.map (fun p => p.lines)).flatten

/-- A poll step at which the loop keeps going: no return code yet and
the timeout not yet exceeded. -/
def stillRunning (t : TaskCfg) (p : PollStep) : Prop :=
  p.rc = none ∧ p.elapsed ≤ t.timeout

/-! ## Controller worker models

Two worker loops appear in the sources.

`machineStep` models one iteration of `DockerMachine.__machineThread`
of docker-machine/cl_api.py (lines 145-180), the variant that latches
errors: the worker only dequeues when `__currentTask` is unset, records
the dequeued task in `__taskHistory`, runs it, clears `__currentTask`
on success, and on an exception stores `__machineErrorMsg` and leaves
`__currentTask` set, which blocks all further dequeuing until
`clearErrors` (lines 198-201) resets both fields.

`workerStep`/`runQ` model `DockerMachine._machine_thread` of
docker_machine_api/cl_api.py (lines 243-264) together with `add_task`
(302-306) and the `queue.Queue` unfinished-task counter that
`wait` (308-312) blocks on: `put` increments it, `task_done` (called
only after a successful `task.call`) decrements it, and
`_task_list.join()` returns exactly when it is zero.  A task whose
`call` raises kills the worker thread (the `raise` at line 259
propagates out of the `while True` loop), so `alive` becomes false and
`task_done` is never called for it.  Tasks carry their abstract
`Outcome` (the result their `call` would produce); `executed` is a
ghost field recording the started tasks in start order. -/

/-- A queued task, abstracted to its name and the outcome its `call`
produces when the worker runs it. -/
structure WTask where
  name : String
  outcome : Outcome
deriving DecidableEq

/-- Whether running the task raises out of `call`
(`failed` and `timedOut` both raise `DockerMachineError`). -/
def isFatal (t : WTask) : Bool :=
  match t.outcome with
  | Outcome.succeeded => false
  | _ => true

/-- The `DockerMachineError` message for a non-succeeded outcome
(`'Task call failed.'` / `'Task call timeout.'`). -/
def outcomeMsg : Outcome → Option String
  | Outcome.succeeded => none
  | Outcome.failed _ _ => some "Task call failed."
  | Outcome.timedOut _ => some "Task call timeout."

/-- State of the docker-machine/cl_api.py controller: pending
`__taskList`, `__currentTask`, `__machineErrorMsg`, `__taskHistory`. -/
structure MState where
  taskList : List WTask
  currentTask : Option WTask
  errorMsg : Option String
  history : List WTask
deriving DecidableEq

/-- The latched error text
`"Machine (%s) task '%s' failed. %s" % (name, task.name, str(e))`
(docker-machine/cl_api.py line 176). -/
def errText (mname tname msg : String) : String :=
  "Machine (" ++ mname ++ ") task '" ++ tname ++ "' failed. " ++ msg

/-- One iteration of `DockerMachine.__machineThread`
(docker-machine/cl_api.py lines 145-180): dequeue only when no current
task; run the dequeued task; on success clear `__currentTask`, on an
exception latch `__machineErrorMsg` and leave `__currentTask` set. -/
def machineStep (mname : String) (s : MState) : MState :=
  match s.currentTask with
  | some _ => s
  | none =>
    match s.taskList with
    | [] => s
    | t :: rest =>
      match outcomeMsg t.outcome with
      | none =>
        { taskList := rest, currentTask := none, errorMsg := none
          history := s.history ++ [t] }
      | some m =>
        { taskList := rest, currentTask := some t
          errorMsg := some (errText mname t.name m)
          history := s.history ++ [t] }

/-- `DockerMachine.clearErrors` (docker-machine/cl_api.py lines
198-201): reset `__currentTask` and `__machineErrorMsg`. -/
def clearErrors (s : MState) : MState :=
  { s with currentTask := none, errorMsg := none }

/-- Iterate the worker loop `k` times. -/
def mIter (mname : String) : Nat → MState → MState
  | 0, s => s
  | k + 1, s => mIter mname k (machineStep mname s)

/-- State of the docker_machine_api/cl_api.py controller:
the pending FIFO `_task_list`, the queue's unfinished-task counter
(`put` increments, `task_done` decrements, `join` waits for zero),
whether the worker thread is still alive, and the ghost start-order
record `executed`. -/
structure QState where
  pending : List WTask
  unfinished : Nat
  alive : Bool
  executed : List WTask
deriving DecidableEq

/-- The controller state right after `DockerMachine.__init__` built the
queue and started the worker, before any task is enqueued. -/
def initQ : QState :=
  { pending := [], unfinished := 0, alive := true, executed := [] }

/-- `DockerMachine.add_task` (docker_machine_api/cl_api.py lines
302-306): `self._task_list.put(task)` appends and increments the
unfinished counter; it never blocks and never reorders. -/
def addTask (s : QState) (t : WTask) : QState :=
  { s with pending := s.pending ++ [t], unfinished := s.unfinished + 1 }

/-- One iteration of `DockerMachine._machine_thread`
(docker_machine_api/cl_api.py lines 243-264): get the next task (a
no-op iteration when the queue is empty), run `task.call` to its
terminal state, then `task_done` on success; when `call` raises, the
re-raise kills the worker thread and `task_done` is never called. -/
def workerStep (s : QState) : QState :=
  if s.alive then
    match s.pending with
    | [] => s
    | t :: rest =>
      if isFatal t then
        { pending := rest, unfinished := s.unfinished, alive := false
          executed := s.executed ++ [t] }
      else
        { pending := rest, unfinished := s.unfinished - 1, alive := true
          executed := s.executed ++ [t] }
  else s

/-- An observable event at the controller: a caller enqueues a task, or
the worker performs one loop iteration. -/
inductive QEvent where
  | add : WTask → QEvent
  | step : QEvent
deriving DecidableEq

/-- Run the controller over a sequence of events. -/
def runQ (s : QState) : List QEvent → QState
  | [] => s
  | QEvent.add t :: evs => runQ (addTask s t) evs
  | QEvent.step :: evs => runQ (workerStep s) evs

/-- The tasks enqueued by an event sequence, in enqueue order. -/
def addedTasks : List QEvent → List WTask
  | [] => []
  | QEvent.add t :: evs => t :: addedTasks evs
  | QEvent.step :: evs => addedTasks evs

/-- `DockerMachine.wait` (docker_machine_api/cl_api.py lines 308-312)
is `self._task_list.join()`: it returns exactly when the queue's
unfinished-task counter is zero. -/
def waitReturns (s : QState) : Prop :=
  s.unfinished = 0

/-- Quiescence as the claim states it: the task queue is empty and no
task is running (steps are atomic, so no task is mid-run between
events). -/
def quiescentQ (s : QState) : Prop :=
  s.pending = []

/-- The number of executed tasks whose `call` raised. -/
def fatalCount (l : List WTask) : Nat :=
  (l.filter (fun t => isFatal t)).length

/-! ## Python object identity: shared mutable defaults

A small heap model, needed only to express aliasing facts about
CPython's evaluation of default arguments and class attributes: a
mutable list object is a cell in `PyHeap`, and objects hold cell
references.  `DockerMachineTask.__init__` (docker_machine_api/cl_api.py
line 87) declares `params=[]`, so the default list is allocated once
when the `def` is evaluated and every construction that omits `params`
references that same cell.  `DockerMachine` of docker-machine/cl_api.py
(lines 80-82) declares `__taskList = []` and `__taskHistory = []` as
class attributes and `__init__` never rebinds them, so every instance
references the same two class-level cells. -/

/-- Heap of mutable Python list objects; a reference is an index. -/
structure PyHeap where
  cells : List (List String)
deriving DecidableEq

/-- Dereference a list object. -/
def readListRef (h : PyHeap) (r : Nat) : List String :=
  h.cells.getD r []

/-- `obj.append(x)` through a reference. -/
def appendListRef (h : PyHeap) (r : Nat) (x : String) : PyHeap :=
  { cells := h.cells.set r (readListRef h r ++ [x]) }

/-- Reference to the class-level `__taskList` of docker-machine's
`DockerMachine`, allocated once when the class body runs. -/
def classTaskListRef : Nat := 0

/-- Reference to the class-level `__taskHistory`, likewise. -/
def classTaskHistoryRef : Nat := 1

/-- Reference to the `params=[]` default of
`DockerMachineTask.__init__`, allocated once when the `def` runs. -/
def defaultParamsRef : Nat := 2

/-- The heap after the module loads: the two class-attribute lists and
the one default-argument list, all empty. -/
def moduleHeap : PyHeap := { cells := [[], [], []] }

/-- A constructed `DockerMachineTask`, reduced to which list object its
`_params` attribute references. -/
structure TaskObj where
  paramsRef : Nat
deriving DecidableEq

/-- `DockerMachineTask.__init__` w.r.t. `params`
(docker_machine_api/cl_api.py line 87 and 101: `self._params =
params`): an explicit argument is referenced as passed; an omitted one
references the shared default cell. -/
def mkDockerMachineTask (params : Option Nat) : TaskObj :=
  { paramsRef := params.getD defaultParamsRef }

/-- A constructed docker-machine `DockerMachine`, reduced to which list
objects its `__taskList` and `__taskHistory` reference. -/
structure MachineObj where
  taskListRef : Nat
  taskHistoryRef : Nat
deriving DecidableEq

/-- `DockerMachine.__init__` of docker-machine/cl_api.py (lines
96-113) w.r.t. `__taskList`/`__taskHistory`: the initializer never
rebinds them, so the instance reads and mutates the class-level
cells. -/
def mkDockerMachine : MachineObj :=
  { taskListRef := classTaskListRef, taskHistoryRef := classTaskHistoryRef }

/-! ## The shared default dict of `_parse_env_text`

`DockerMachine._parse_env_text(self, input, env=os.environ.copy())`
(docker_machine_api/cl_api.py line 224): the default dict is created
once when the `def` is evaluated.  A call that omits `env` binds
`output = env` to that shared dict, mutates it in place, and returns
it, so the default dict must be threaded through successive calls as
state. -/

/-- One call of `_parse_env_text`: `envArg = none` models omitting the
`env` argument.  Returns the call's result together with the
(possibly mutated) default dict. -/
def parseEnvTextCall (envArg : Option EnvMap) (input : List Char)
    (defaultEnv : EnvMap) : EnvMap × EnvMap :=
  match envArg with
  | some e => (parseEnvText input e, defaultEnv)
  | none =>
    let r := parseEnvText input defaultEnv
    (r, r)

/-! # Helper lemmas -/

theorem dropWhile_eq_self_of {p : Char → Bool} :
    ∀ {l : List Char}, (∀ c ∈ l, p c = false) → l.dropWhile p = l
  | [], _ => rfl
  | c :: rest, h => by
    have hc : p c = false := h c (by simp)
    simp [List.dropWhile_cons, hc]

theorem pyStrip_no_strip (chars : List Char) (l : List Char)
    (h : ∀ c ∈ l, chars.contains c = false) : pyStrip chars l = l := by
  unfold pyStrip
  rw [dropWhile_eq_self_of h,
      dropWhile_eq_self_of (fun c hc => h c (List.mem_reverse.mp hc)),
      List.reverse_reverse]

theorem pySplit_no_sep (sep : Char) :
    ∀ l : List Char, (∀ c ∈ l, c ≠ sep) → pySplit sep l = [l]
  | [], _ => rfl
  | c :: rest, h => by
    have hc : c ≠ sep := h c (by simp)
    have ih := pySplit_no_sep sep rest (fun x hx => h x (by simp [hx]))
    simp [pySplit, hc, ih]

theorem pySplit_append_sep (sep : Char) :
    ∀ l1 l2 : List Char, (∀ c ∈ l1, c ≠ sep) →
      pySplit sep (l1 ++ sep :: l2) = l1 :: pySplit sep l2
  | [], l2, _ => by simp [pySplit]
  | c :: l1, l2, h => by
    have hc : c ≠ sep := h c (by simp)
    have ih := pySplit_append_sep sep l1 l2 (fun x hx => h x (by simp [hx]))
    simp [pySplit, hc, ih]

theorem envLookup_map_update_ne (n v k : List Char) (hk : k ≠ n) :
    ∀ env : EnvMap,
      envLookup (env.map (fun q => if q.1 = n then (n, v) else q)) k =
        envLookup env k
  | [] => rfl
  | p :: env => by
    have ih := envLookup_map_update_ne n v k hk env
    by_cases hp : p.1 = n
    · have h1 : ¬(n = k) := fun hh => hk hh.symm
      have h2 : ¬(p.1 = k) := by rw [hp]; exact h1
      simp [envLookup, hp, h1, h2, ih]
    · by_cases hpk : p.1 = k <;> simp [envLookup, hp, hpk, hk, ih]

theorem envLookup_append_single_ne (n v k : List Char) (hk : k ≠ n) :
    ∀ env : EnvMap, envLookup (env ++ [(n, v)]) k = envLookup env k
  | [] => by
    have h1 : ¬(n = k) := fun hh => hk hh.symm
    simp [envLookup, h1]
  | p :: env => by
    have ih := envLookup_append_single_ne n v k hk env
    by_cases hpk : p.1 = k <;> simp [envLookup, hpk, ih]

theorem envLookup_map_update_self (n v : List Char) :
    ∀ env : EnvMap, env.any (fun q => q.1 = n) = true →
      envLookup (env.map (fun q => if q.1 = n then (n, v) else q)) n = some v
  | [], h => by simp at h
  | p :: env, h => by
    by_cases hp : p.1 = n
    · simp [envLookup, hp]
    · have hh : env.any (fun q => q.1 = n) = true := by
        simp [List.any_cons, hp] at h
        simpa using h
      have ih := envLookup_map_update_self n v env hh
      simp [envLookup, hp, ih]

theorem envLookup_append_single_self (n v : List Char) :
    ∀ env : EnvMap, env.any (fun q => q.1 = n) = false →
      envLookup (env ++ [(n, v)]) n = some v
  | [], _ => by simp [envLookup]
  | p :: env, h => by
    have hp : ¬(p.1 = n) := by
      intro hp
      simp [List.any_cons, hp] at h
    have hh : env.any (fun q => q.1 = n) = false := by
      simp [List.any_cons] at h
      simpa using h.2
    have ih := envLookup_append_single_self n v env hh
    simp [envLookup, hp, ih]

/-- Lookup after a Python dict assignment: the assigned key reads the
new value, every other key is untouched. -/
theorem envLookup_pyUpdate (env : EnvMap) (n v k : List Char) :
    envLookup (pyUpdate env n v) k =
      if k = n then some v else envLookup env k := by
  by_cases hk : k = n
  · subst hk
    unfold pyUpdate
    by_cases ha : env.any (fun q => q.1 = k) = true
    · simp [ha, envLookup_map_update_self k v env ha]
    · simp only [Bool.not_eq_true] at ha
      simp [ha, envLookup_append_single_self k v env ha]
  · unfold pyUpdate
    by_cases ha : env.any (fun q => q.1 = n) = true
    · simp [ha, envLookup_map_update_ne n v k hk env, hk]
    · simp only [Bool.not_eq_true] at ha
      simp [ha, envLookup_append_single_ne n v k hk env, hk]

set_option maxHeartbeats 1000000 in
theorem splitlinesAux_no_boundary :
    ∀ (l acc : List Char), (∀ c ∈ l, isLineBoundary c = false) →
      splitlinesAux l acc =
        if (acc.reverse ++ l).isEmpty then [] else [acc.reverse ++ l]
  | [], acc, _ => by
    have h0 : splitlinesAux [] acc =
        if acc.isEmpty then [] else [acc.reverse] := rfl
    rw [h0]
    cases acc <;> simp
  | c :: rest, acc, h => by
    have hc : isLineBoundary c = false := h c (by simp)
    have ih := splitlinesAux_no_boundary rest (c :: acc)
      (fun x hx => h x (by simp [hx]))
    have hside : ∀ (r1 : List Char), c = '\r' → rest = '\n' :: r1 → False := by
      intro r1 hcr _
      subst hcr
      simp [isLineBoundary] at hc
    have hstep : splitlinesAux (c :: rest) acc =
        splitlinesAux rest (c :: acc) := by
      rw [splitlinesAux.eq_3 acc c rest hside, hc]
      simp
    rw [hstep, ih]
    have hsh : (c :: acc).reverse ++ rest = acc.reverse ++ c :: rest := by
      simp
    rw [hsh]

theorem splitlines_single (l : List Char) (hne : l ≠ [])
    (h : ∀ c ∈ l, isLineBoundary c = false) : splitlines l = [l] := by
  unfold splitlines
  rw [splitlinesAux_no_boundary l [] h]
  simp [hne]

theorem parseEnvLine_non_export (env : EnvMap) (l : List Char)
    (h : leadsWith exportChars l = false) : parseEnvLine env l = env := by
  unfold parseEnvLine
  rw [h]
  simp

theorem foldl_parseEnvLine_no_export :
    ∀ (ls : List (List Char)) (env : EnvMap),
      (∀ l ∈ ls, leadsWith exportChars l = false) →
      ls.foldl parseEnvLine env = env
  | [], _, _ => rfl
  | l :: ls, env, h => by
    rw [List.foldl_cons, parseEnvLine_non_export env l (h l (by simp))]
    exact foldl_parseEnvLine_no_export ls env (fun x hx => h x (by simp [hx]))

/-- A call of `_parse_env_text` whose input has no export lines leaves
the dictionary unchanged. -/
theorem parseEnvText_no_export (input : List Char) (env : EnvMap)
    (h : ∀ l ∈ splitlines input, leadsWith exportChars l = false) :
    parseEnvText input env = env :=
  foldl_parseEnvLine_no_export (splitlines input) env h

/-- The fields of `wfName`, unpacked. -/
theorem wfName_spec (n : List Char) (hn : wfName n = true) :
    n ≠ [] ∧ ∀ c ∈ n, c ≠ ' ' ∧ c ≠ '=' ∧ c ≠ '"' ∧
      isLineBoundary c = false := by
  unfold wfName at hn
  simp only [Bool.and_eq_true, List.all_eq_true] at hn
  constructor
  · intro he
    rw [he] at hn
    simp at hn
  · intro c hc
    have := hn.2 c hc
    simp only [Bool.and_eq_true, Bool.not_eq_true', decide_eq_true_eq,
      ne_eq] at this ⊢
    tauto

/-- The fields of `wfValue`, unpacked. -/
theorem wfValue_spec (v : List Char) (hv : wfValue v = true) :
    (∀ c ∈ v, c ≠ '=' ∧ isLineBoundary c = false) ∧
    (∀ c, v.head? = some c → c ≠ '"' ∧ c ≠ ' ') ∧
    (∀ c, v.getLast? = some c → c ≠ '"' ∧ c ≠ ' ') := by
  unfold wfValue at hv
  simp only [Bool.and_eq_true, List.all_eq_true] at hv
  obtain ⟨⟨hall, hhead⟩, hlast⟩ := hv
  refine ⟨fun c hc => ?_, fun c hc => ?_, fun c hc => ?_⟩
  · have := hall c hc
    simp only [Bool.and_eq_true, Bool.not_eq_true', decide_eq_true_eq,
      ne_eq] at this ⊢
    tauto
  · rw [hc] at hhead
    simp only [Bool.and_eq_true, decide_eq_true_eq, ne_eq] at hhead ⊢
    tauto
  · rw [hc] at hlast
    simp only [Bool.and_eq_true, decide_eq_true_eq, ne_eq] at hlast ⊢
    tauto

/-- Stripping `' '` from `' ' :: n` recovers a well-formed name. -/
theorem pyStrip_space_name (n : List Char)
    (h : ∀ c ∈ n, c ≠ ' ') : pyStrip [' '] (' ' :: n) = n := by
  have hmem : ∀ c ∈ n, ([' '] : List Char).contains c = false := by
    intro c hc
    simpa using h c hc
  unfold pyStrip
  have h1 : (' ' :: n).dropWhile (fun c => ([' '] : List Char).contains c) =
      n.dropWhile (fun c => ([' '] : List Char).contains c) := by
    rw [List.dropWhile_cons_of_pos]
    simp
  rw [h1, dropWhile_eq_self_of hmem,
      dropWhile_eq_self_of (fun c hc => hmem c (List.mem_reverse.mp hc)),
      List.reverse_reverse]

/-- Stripping `'"'`/`' '` from the quoted word `'"' :: v ++ ['"']`
recovers a well-formed value. -/
theorem pyStrip_quoted (v : List Char) (hv : wfValue v = true) :
    pyStrip ['"', ' '] ('"' :: (v ++ ['"'])) = v := by
  obtain ⟨-, hhead, hlast⟩ := wfValue_spec v hv
  cases v with
  | nil => decide
  | cons c0 v2 =>
    have hc0 : c0 ≠ '"' ∧ c0 ≠ ' ' := hhead c0 rfl
    unfold pyStrip
    have h1 : ('"' :: (c0 :: v2 ++ ['"'])).dropWhile
        (fun c => (['"', ' '] : List Char).contains c) =
        c0 :: v2 ++ ['"'] := by
      rw [List.dropWhile_cons_of_pos (by simp), List.cons_append,
          List.dropWhile_cons_of_neg]
      simp [hc0.1, hc0.2]
    rw [h1]
    have h2 : ((c0 :: v2 ++ ['"']) : List Char).reverse =
        '"' :: (c0 :: v2).reverse := by
      simp
    rw [h2]
    cases hrev : (c0 :: v2).reverse with
    | nil => simp at hrev
    | cons d vr =>
      have hd : (c0 :: v2).getLast? = some d := by
        rw [← List.head?_reverse, hrev]
        rfl
      have hd2 : d ≠ '"' ∧ d ≠ ' ' := hlast d hd
      rw [List.dropWhile_cons_of_pos (by simp),
          List.dropWhile_cons_of_neg (by simp [hd2.1, hd2.2]),
          ← hrev, List.reverse_reverse]

/-- Every character of a canonical export line is outside the
`splitlines` boundary set. -/
theorem mkExportLine_no_boundary (n v : List Char)
    (hn : wfName n = true) (hv : wfValue v = true) :
    ∀ c ∈ mkExportLine n v, isLineBoundary c = false := by
  obtain ⟨-, hnall⟩ := wfName_spec n hn
  obtain ⟨hvall, -, -⟩ := wfValue_spec v hv
  intro c hc
  rw [mkExportLine] at hc
  rcases List.mem_append.mp hc with h1 | h2
  · rcases List.mem_append.mp h1 with h7 | hcn
    · have h7b : c ∈ (['e', 'x', 'p', 'o', 'r', 't', ' '] : List Char) := h7
      fin_cases h7b <;> decide
    · exact (hnall c hcn).2.2.2
  · rcases List.mem_cons.mp h2 with he | h3
    · subst he; decide
    · rcases List.mem_cons.mp h3 with he | h4
      · subst he; decide
      · rcases List.mem_append.mp h4 with hcv | h5
        · exact (hvall c hcv).2
        · have he : c = '"' := List.mem_singleton.mp h5
          subst he; decide

/-- The per-line update on a canonical `export NAME="value"` line is
exactly the dict assignment `env[NAME] = value`. -/
theorem parseEnvLine_export (env : EnvMap) (n v : List Char)
    (hn : wfName n = true) (hv : wfValue v = true) :
    parseEnvLine env (mkExportLine n v) = pyUpdate env n v := by
  obtain ⟨-, hnall⟩ := wfName_spec n hn
  obtain ⟨hvall, -, -⟩ := wfValue_spec v hv
  have hB : leadsWith exportChars (mkExportLine n v) = true := rfl
  have hC : pyLStrip exportChars (mkExportLine n v) =
      (' ' :: n) ++ '=' :: ('"' :: (v ++ ['"'])) := rfl
  have hE : pySplit '=' ((' ' :: n) ++ '=' :: ('"' :: (v ++ ['"']))) =
      [' ' :: n, '"' :: (v ++ ['"'])] := by
    rw [pySplit_append_sep '=' (' ' :: n) ('"' :: (v ++ ['"']))
        (by
          intro c hc
          rcases List.mem_cons.mp hc with h1 | h2
          · subst h1; decide
          · exact (hnall c h2).2.1)]
    rw [pySplit_no_sep '=' ('"' :: (v ++ ['"']))
        (by
          intro c hc
          rcases List.mem_cons.mp hc with h1 | h2
          · subst h1; decide
          · rcases List.mem_append.mp h2 with h3 | h4
            · exact (hvall c h3).1
            · rcases List.mem_singleton.mp h4 with h5
              subst h5; decide)]
  unfold parseEnvLine
  rw [hB, hC, hE]
  simp only [if_true]
  rw [pyStrip_space_name n (fun c hc => (hnall c hc).1),
      pyStrip_quoted v hv]

/-- `_parse_env_text` on the single canonical line is exactly the dict
assignment. -/
theorem parseEnvText_export (env : EnvMap) (n v : List Char)
    (hn : wfName n = true) (hv : wfValue v = true) :
    parseEnvText (mkExportLine n v) env = pyUpdate env n v := by
  unfold parseEnvText
  rw [splitlines_single (mkExportLine n v)
        (by simp [mkExportLine])
        (mkExportLine_no_boundary n v hn hv)]
  rw [List.foldl_cons, List.foldl_nil]
  exact parseEnvLine_export env n v hn hv

/-! # Claim theorems -/

/-- C6 (counterexample): the claim states that every line not of the
form `export NAME="value"` leaves the environment map completely
unchanged.  The line `exported=true` is not of that form
(`isExportForm` decides the form), yet the parser changes the map:
`line.lstrip('export')` strips the character set `{e,x,p,o,r,t}`, so
`exported=true` becomes `d=true` and the key `d` is assigned. -/
theorem env_nonform_line_changes_map :
    isExportForm "exported=true".toList = false
  ∧ parseEnvText "exported=true".toList [] = [(['d'], "true".toList)]
  ∧ parseEnvText "exported=true".toList [] ≠ [] :=
  ⟨by decide, by decide, by decide⟩

/-- C6 (amended): applying the env-text parser to a line of the
canonical form `export NAME="value"` sets exactly the key `NAME` to
`value`; the updated map reads back `value` at `NAME`; every other key
retains its prior value; and every line that does not start with
`export` leaves the map completely unchanged.  (The original claim's
final clause — that every line not of the canonical form leaves the map
unchanged — fails; see `env_nonform_line_changes_map`.) -/
theorem parse_export_line_updates (env : EnvMap) (n v : List Char)
    (hn : wfName n = true) (hv : wfValue v = true) :
    parseEnvText (mkExportLine n v) env = pyUpdate env n v
  ∧ envLookup (pyUpdate env n v) n = some v
  ∧ (∀ k, k ≠ n → envLookup (pyUpdate env n v) k = envLookup env k)
  ∧ (∀ (l : List Char) (e : EnvMap),
      leadsWith exportChars l = false → parseEnvLine e l = e) := by
  refine ⟨parseEnvText_export env n v hn hv, ?_, ?_, ?_⟩
  · rw [envLookup_pyUpdate]
    simp
  · intro k hk
    rw [envLookup_pyUpdate, if_neg hk]
  · exact fun l e hl => parseEnvLine_non_export e l hl

/-- Witness for `parse_export_line_updates` at a concrete input. -/
theorem parse_export_line_updates_witness :
    wfName ['A'] = true ∧ wfValue ['1'] = true ∧
    parseEnvText (mkExportLine ['A'] ['1']) [(['B'], ['2'])] =
      pyUpdate [(['B'], ['2'])] ['A'] ['1'] :=
  ⟨by decide, by decide,
    (parse_export_line_updates [(['B'], ['2'])] ['A'] ['1']
      (by decide) (by decide)).1⟩

/-- C10 (confirmed): the default `env=os.environ.copy()` dict of
`_parse_env_text` is created once at function definition; a call that
omits `env` mutates and returns that same dict, so a key merged by an
earlier call is still present in the result of a later call whose input
contains no export lines at all (in particular, no line containing that
key). -/
theorem default_env_persists (d0 : EnvMap) (n v : List Char)
    (t2 : List Char) (hn : wfName n = true) (hv : wfValue v = true)
    (h2 : ∀ l ∈ splitlines t2, leadsWith exportChars l = false) :
    envLookup (parseEnvTextCall none t2
        (parseEnvTextCall none (mkExportLine n v) d0).2).1 n = some v
  ∧ (parseEnvTextCall none t2
        (parseEnvTextCall none (mkExportLine n v) d0).2).1 =
      (parseEnvTextCall none t2
        (parseEnvTextCall none (mkExportLine n v) d0).2).2 := by
  simp only [parseEnvTextCall]
  rw [parseEnvText_export d0 n v hn hv,
      parseEnvText_no_export t2 (pyUpdate d0 n v) h2]
  refine ⟨?_, by trivial⟩
  rw [envLookup_pyUpdate]
  simp

/-- Witness for `default_env_persists` at a concrete input. -/
theorem default_env_persists_witness :
    wfName ['A'] = true ∧ wfValue ['1'] = true ∧
    (∀ l ∈ splitlines "plain text\nno assignments".toList,
        leadsWith exportChars l = false) ∧
    envLookup (parseEnvTextCall none "plain text\nno assignments".toList
        (parseEnvTextCall none (mkExportLine ['A'] ['1']) []).2).1 ['A'] =
      some ['1'] :=
  ⟨by decide, by decide, by decide,
    (default_env_persists [] ['A'] ['1'] "plain text\nno assignments".toList
      (by decide) (by decide) (by decide)).1⟩

/-- The input `"\x1b[\x1b[31m31m"` for the C7 counterexample: an escape
introducer whose body is interrupted by a second, complete escape
sequence. -/
def c7Input : List Char :=
  ['\x1b', '[', '\x1b', '[', '3', '1', 'm', '3', '1', 'm']

/-- What `_format_text` leaves of `c7Input`: the single pass removes the
inner `\x1b[31m` and rejoins `\x1b[` with `31m`, which is itself a
complete ANSI escape sequence. -/
def c7Residual : List Char := ['\x1b', '[', '3', '1', 'm']

theorem matchEscape_none_of (c : Char) (rest : List Char)
    (h1 : c ≠ escChar) (h2 : c ≠ csiChar) :
    matchEscape (c :: rest) = none := by
  unfold matchEscape
  simp [h1, h2]

theorem ansiGo_no_introducer :
    ∀ (fuel : Nat) (cs : List Char),
      (∀ c ∈ cs, c ≠ escChar ∧ c ≠ csiChar) → ansiGo fuel cs = cs
  | 0, _, _ => rfl
  | _ + 1, [], _ => rfl
  | fuel + 1, c :: rest, h => by
    have hc := h c (by simp)
    have ih := ansiGo_no_introducer fuel rest (fun x hx => h x (by simp [hx]))
    rw [ansiGo, matchEscape_none_of c rest hc.1 hc.2]
    rw [ih]

/-- C7 (counterexample): the claim states that no raw ANSI escape
sequence remains in any pushed line.  `re.sub` performs a single
left-to-right pass, so removing an inner match can rejoin a dangling
introducer with a later body: `_format_text` maps `c7Input` to
`c7Residual`, which is itself a complete match of the escape pattern —
the output of the reader contains a raw ANSI escape sequence. -/
theorem ansi_residual_escape :
    formatText c7Input = c7Residual
  ∧ isFullEscMatch c7Residual = true
  ∧ containsEscSeq (formatText c7Input) :=
  ⟨by decide, by decide, ⟨[], c7Residual, [], by decide, by decide⟩⟩

/-- C7 (amended): `_format_text` removes the leftmost non-overlapping
matches of the ANSI escape pattern in one pass: the distinguished input
`"\x1b[31mRED\x1b[0m"` yields exactly `"RED"`, and any line containing
no escape introducer (`\x1b` or `\x9b`) passes through unchanged (hence
escape-free).  A line may retain a raw escape sequence only when an
introducer was rejoined with a later body by the removal of an inner
match, as in `ansi_residual_escape`. -/
theorem format_text_amended (cs : List Char)
    (h : ∀ c ∈ cs, c ≠ escChar ∧ c ≠ csiChar) :
    formatText "\x1b[31mRED\x1b[0m".toList = "RED".toList
  ∧ formatText cs = cs :=
  ⟨by decide, ansiGo_no_introducer cs.length cs h⟩

/-- Witness for `format_text_amended` at a concrete input. -/
theorem format_text_amended_witness :
    (∀ c ∈ "plain".toList, c ≠ escChar ∧ c ≠ csiChar)
  ∧ formatText "plain".toList = "plain".toList :=
  ⟨by decide,
    (format_text_amended "plain".toList (by decide)).2⟩

theorem traceLines_cons (p : PollStep) (ps : List PollStep) :
    traceLines (p :: ps) = p.lines ++ traceLines ps := by
  simp [traceLines]

/-- One-step equation of the poll loop at an iteration whose
`process.poll()` returned `none`. -/
theorem callGo_cons_none (t : TaskCfg) (fl ls : List (List Char))
    (el : Nat) (rest : List PollStep) (acc : List (List Char)) :
    callGo t fl (({ lines := ls, rc := none, elapsed := el } : PollStep)
        :: rest) acc =
      if t.timeout < el then
        some { outcome := Outcome.timedOut t.name
               captured := acc ++ ls ++ fl
               cbCalls := []
               killed := true
               finalDrain := true }
      else
        callGo t fl rest (acc ++ ls) := rfl

/-- One-step equation of the poll loop at an iteration whose
`process.poll()` returned an exit code. -/
theorem callGo_cons_some (t : TaskCfg) (fl ls : List (List Char))
    (r : Int) (el : Nat) (rest : List PollStep) (acc : List (List Char)) :
    callGo t fl (({ lines := ls, rc := some r, elapsed := el } : PollStep)
        :: rest) acc =
      if r = 0 ∨ t.allowedToFail = true then
        some { outcome := Outcome.succeeded
               captured := acc ++ ls ++ fl
               cbCalls := if t.hasCb then [joinLines (acc ++ ls ++ fl)]
                 else []
               killed := false
               finalDrain := true }
      else
        some { outcome := Outcome.failed t.name r
               captured := acc ++ ls
               cbCalls := []
               killed := false
               finalDrain := false } := rfl

/-- Poll steps at which the process is still running are pure
accumulation: the loop drains their lines and sleeps. -/
theorem callGo_skip (t : TaskCfg) (fl : List (List Char)) :
    ∀ (pre : List PollStep), (∀ q ∈ pre, stillRunning t q) →
      ∀ (trace : List PollStep) (acc : List (List Char)),
        callGo t fl (pre ++ trace) acc =
          callGo t fl trace (acc ++ traceLines pre)
  | [], _, trace, acc => by simp [traceLines]
  | p :: pre, h, trace, acc => by
    obtain ⟨hrc, hel⟩ := h p (by simp)
    have ih := callGo_skip t fl pre (fun q hq => h q (by simp [hq]))
      trace (acc ++ p.lines)
    obtain ⟨ls, rc, el⟩ := p
    simp only at hrc hel ih
    subst hrc
    rw [List.cons_append, callGo_cons_none, if_neg (by omega), ih,
        traceLines_cons]
    simp only [List.append_assoc]

/-- An allowed-to-fail task never resolves to `failed`: the only raise
left to it is the timeout. -/
theorem callGo_not_failed_of_allowed (t : TaskCfg) (fl : List (List Char))
    (ht : t.allowedToFail = true) :
    ∀ (trace : List PollStep) (acc : List (List Char)) (res : CallResult),
      callGo t fl trace acc = some res →
      ∀ nm c, res.outcome ≠ Outcome.failed nm c
  | [], _, _, h => by simp [callGo] at h
  | p :: rest, acc, res, h => by
    obtain ⟨ls, rc, el⟩ := p
    cases rc with
    | some r =>
      rw [callGo_cons_some, if_pos (Or.inr ht)] at h
      simp only [Option.some.injEq] at h
      subst h
      intro nm c hcon
      cases hcon
    | none =>
      rw [callGo_cons_none] at h
      by_cases hto : t.timeout < el
      · rw [if_pos hto] at h
        simp only [Option.some.injEq] at h
        subst h
        intro nm c hcon
        cases hcon
      · rw [if_neg hto] at h
        exact callGo_not_failed_of_allowed t fl ht rest (acc ++ ls) res h

/-- The callback discipline of the poll loop: invoked exactly once,
with the newline-joined captured text, when the task succeeds and a
callback is registered; never invoked otherwise. -/
theorem callGo_cb (t : TaskCfg) (fl : List (List Char)) :
    ∀ (trace : List PollStep) (acc : List (List Char)) (res : CallResult),
      callGo t fl trace acc = some res →
      ((res.outcome = Outcome.succeeded ∧ t.hasCb = true →
          res.cbCalls = [joinLines res.captured])
       ∧ (¬(res.outcome = Outcome.succeeded ∧ t.hasCb = true) →
          res.cbCalls = []))
  | [], _, _, h => by simp [callGo] at h
  | p :: rest, acc, res, h => by
    obtain ⟨ls, rc, el⟩ := p
    cases rc with
    | some r =>
      by_cases hok : r = 0 ∨ t.allowedToFail = true
      · rw [callGo_cons_some, if_pos hok] at h
        simp only [Option.some.injEq] at h
        subst h
        by_cases hcb : t.hasCb = true <;>
          constructor <;> intro hx <;> simp [hcb] at hx ⊢
      · rw [callGo_cons_some, if_neg hok] at h
        simp only [Option.some.injEq] at h
        subst h
        constructor
        · intro hx
          cases hx.1
        · intro _
          rfl
    | none =>
      by_cases hto : t.timeout < el
      · rw [callGo_cons_none, if_pos hto] at h
        simp only [Option.some.injEq] at h
        subst h
        constructor
        · intro hx
          cases hx.1
        · intro _
          rfl
      · rw [callGo_cons_none, if_neg hto] at h
        exact callGo_cb t fl rest (acc ++ ls) res h

/-- C3 (confirmed): when the poll loop first observes an exit code `r`
after only still-running iterations, the task is classified `succeeded`
whenever `r = 0` or `allowed_to_fail` is set — invoking the completion
callback, when registered, with the newline-joined captured text — and
`failed` with the task's name and exit code whenever `r ≠ 0` and
`allowed_to_fail` is unset; an allowed-to-fail task never resolves to
`failed` on any trace, and a task whose outcome is `succeeded` leaves
the worker's latched-error field clear. -/
theorem call_classify (t : TaskCfg) (fl : List (List Char))
    (pre post : List PollStep) (p : PollStep) (r : Int)
    (hpre : ∀ q ∈ pre, stillRunning t q) (hp : p.rc = some r) :
    ((r = 0 ∨ t.allowedToFail = true) →
       callTask t fl (pre ++ p :: post) =
         some { outcome := Outcome.succeeded
                captured := traceLines pre ++ p.lines ++ fl
                cbCalls := if t.hasCb then
                    [joinLines (traceLines pre ++ p.lines ++ fl)] else []
                killed := false
                finalDrain := true })
  ∧ ((¬r = 0 ∧ t.allowedToFail = false) →
       callTask t fl (pre ++ p :: post) =
         some { outcome := Outcome.failed t.name r
                captured := traceLines pre ++ p.lines
                cbCalls := []
                killed := false
                finalDrain := false })
  ∧ (t.allowedToFail = true →
       ∀ (trace : List PollStep) (res : CallResult),
         callTask t fl trace = some res →
         ∀ nm c, res.outcome ≠ Outcome.failed nm c)
  ∧ (∀ (mn nm : String) (rest2 hist : List WTask),
       (machineStep mn
          { taskList := { name := nm, outcome := Outcome.succeeded } :: rest2
            currentTask := none
            errorMsg := none
            history := hist }).errorMsg = none) := by
  obtain ⟨ls, rc, el⟩ := p
  simp only at hp
  subst hp
  have hskip : callTask t fl
      (pre ++ ({ lines := ls, rc := some r, elapsed := el } : PollStep)
        :: post) =
      callGo t fl
        (({ lines := ls, rc := some r, elapsed := el } : PollStep) :: post)
        (traceLines pre) := by
    unfold callTask
    rw [callGo_skip t fl pre hpre _ []]
    simp
  refine ⟨?_, ?_, ?_, ?_⟩
  · intro hok
    rw [hskip, callGo_cons_some, if_pos hok]
  · intro hbad
    have hnot : ¬(r = 0 ∨ t.allowedToFail = true) := by
      intro hor
      rcases hor with h0 | h1
      · exact hbad.1 h0
      · rw [hbad.2] at h1
        exact Bool.noConfusion h1
    rw [hskip, callGo_cons_some, if_neg hnot]
  · intro ht trace res h
    exact callGo_not_failed_of_allowed t fl ht trace [] res h
  · intro mn nm rest2 hist
    rfl

/-- Concrete task for the C3 witness. -/
def c3Task : TaskCfg :=
  { name := "w", allowedToFail := false, hasCb := true, timeout := 5 }

/-- Concrete poll step for the C3 witness: exit code 0 on the first
iteration, one line of output. -/
def c3Poll : PollStep := { lines := [['o', 'k']], rc := some 0, elapsed := 1 }

/-- Witness for `call_classify`: a one-step trace exiting with code 0
resolves to `succeeded` with the callback invoked on the captured
line. -/
theorem call_classify_witness :
    callTask c3Task [] ([] ++ c3Poll :: []) =
      some { outcome := Outcome.succeeded
             captured := traceLines [] ++ c3Poll.lines ++ []
             cbCalls := if c3Task.hasCb then
                 [joinLines (traceLines [] ++ c3Poll.lines ++ [])] else []
             killed := false
             finalDrain := true } :=
  (call_classify c3Task [] [] [] c3Poll 0 (by simp) rfl).1 (Or.inl rfl)

/-- C4 (confirmed): when the elapsed wall time first exceeds the
configured timeout with no exit code reported, the engine kills the
process, performs the final drain of both readers, and classifies the
task `timedOut` — an outcome distinct from `failed` at every name and
exit code. -/
theorem call_timeout_classify (t : TaskCfg) (fl : List (List Char))
    (pre post : List PollStep) (p : PollStep)
    (hpre : ∀ q ∈ pre, stillRunning t q)
    (hrc : p.rc = none) (hto : t.timeout < p.elapsed) :
    callTask t fl (pre ++ p :: post) =
      some { outcome := Outcome.timedOut t.name
             captured := traceLines pre ++ p.lines ++ fl
             cbCalls := []
             killed := true
             finalDrain := true }
  ∧ (∀ nm c, Outcome.timedOut t.name ≠ Outcome.failed nm c) := by
  obtain ⟨ls, rc, el⟩ := p
  simp only at hrc hto
  subst hrc
  constructor
  · unfold callTask
    rw [callGo_skip t fl pre hpre _ []]
    simp only [List.nil_append]
    rw [callGo_cons_none, if_pos hto]
  · intro nm c hcon
    cases hcon

/-- Concrete task for the C4 witness: a 2-second timeout. -/
def c4Task : TaskCfg :=
  { name := "slow", allowedToFail := false, hasCb := false, timeout := 2 }

/-- First poll of the C4 witness: still running after one second. -/
def c4PollA : PollStep := { lines := [], rc := none, elapsed := 1 }

/-- Second poll of the C4 witness: still no exit code after three
seconds, past the 2-second timeout. -/
def c4PollB : PollStep := { lines := [], rc := none, elapsed := 3 }

/-- Witness for `call_timeout_classify`: the 2-second-timeout task still
running after 3 seconds resolves to `timedOut`, killed and drained. -/
theorem call_timeout_classify_witness :
    callTask c4Task [] ([c4PollA] ++ c4PollB :: []) =
      some { outcome := Outcome.timedOut c4Task.name
             captured := traceLines [c4PollA] ++ c4PollB.lines ++ []
             cbCalls := []
             killed := true
             finalDrain := true } :=
  (call_timeout_classify c4Task [] [c4PollA] [] c4PollB
    (by
      intro q hq
      rcases List.mem_singleton.mp hq with rfl
      exact ⟨rfl, by decide⟩)
    rfl (by decide)).1

/-- The task of the C8 counterexample: a completion callback is
registered and `allowed_to_fail` is unset. -/
def c8Task : TaskCfg :=
  { name := "t", allowedToFail := false, hasCb := true, timeout := 540 }

/-- A first poll observing exit code 1. -/
def c8Poll : PollStep := { lines := [], rc := some 1, elapsed := 0 }

/-- A first poll observing exit code 0 with one line of output, for the
C8 witness. -/
def c8PollOk : PollStep := { lines := [['o']], rc := some 0, elapsed := 0 }

/-- C8 (counterexample): the claim states the callback of every
callback-carrying task is invoked exactly once by the time the task
reaches a terminal state (`succeeded`, `failed`, or `timedOut`).  But
`call` raises on a non-zero exit code before ever invoking the
callback: `c8Task` carries a callback and reaches the terminal state
`failed "t" 1` with zero callback invocations. -/
theorem callback_skipped_on_failure :
    c8Task.hasCb = true
  ∧ callTask c8Task [] [c8Poll] =
      some { outcome := Outcome.failed "t" 1
             captured := []
             cbCalls := []
             killed := false
             finalDrain := false }
  ∧ (callTask c8Task [] [c8Poll]).map (fun res => res.cbCalls.length) ≠
      some 1 :=
  ⟨rfl, by decide, by decide⟩

/-- C8 (amended): the completion callback is invoked exactly once, with
the full newline-joined captured text, when and only when the task
resolves `succeeded` (exit code 0, or any exit code with
`allowed_to_fail`) and a callback is registered; on `failed` and
`timedOut` terminal states the callback is not invoked at all. -/
theorem callback_once_on_success (t : TaskCfg) (fl : List (List Char))
    (trace : List PollStep) (res : CallResult)
    (h : callTask t fl trace = some res) :
    (res.outcome = Outcome.succeeded ∧ t.hasCb = true →
       res.cbCalls = [joinLines res.captured])
  ∧ (¬(res.outcome = Outcome.succeeded ∧ t.hasCb = true) →
       res.cbCalls = []) :=
  callGo_cb t fl trace [] res h

/-- Witness for `callback_once_on_success` at a concrete succeeded
task. -/
theorem callback_once_on_success_witness :
    callTask c8Task [] [c8PollOk] =
      some { outcome := Outcome.succeeded
             captured := [['o']]
             cbCalls := [joinLines [['o']]]
             killed := false
             finalDrain := true }
  ∧ ({ outcome := Outcome.succeeded
       captured := [['o']]
       cbCalls := [joinLines [['o']]]
       killed := false
       finalDrain := true } : CallResult).cbCalls = [joinLines [['o']]] :=
  ⟨by decide,
    (callback_once_on_success c8Task [] [c8PollOk]
      { outcome := Outcome.succeeded
        captured := [['o']]
        cbCalls := [joinLines [['o']]]
        killed := false
        finalDrain := true }
      (by decide)).1 ⟨rfl, rfl⟩⟩

theorem mIter_fix (mname : String) (s : MState)
    (hfix : machineStep mname s = s) : ∀ k, mIter mname k s = s
  | 0 => rfl
  | k + 1 => by
    rw [mIter, hfix]
    exact mIter_fix mname s hfix k

/-- One-step equation of the latch-and-halt worker at an idle state
with a nonempty queue. -/
theorem machineStep_cons (mname : String) (t : WTask)
    (rest hist : List WTask) :
    machineStep mname
      { taskList := t :: rest, currentTask := none, errorMsg := none
        history := hist } =
      (match outcomeMsg t.outcome with
       | none =>
         { taskList := rest, currentTask := none, errorMsg := none
           history := hist ++ [t] }
       | some m =>
         { taskList := rest, currentTask := some t
           errorMsg := some (errText mname t.name m)
           history := hist ++ [t] }) := rfl

/-- After `clearErrors`, a run of all-succeeding queued tasks executes
to completion, appending them to the history in queue order. -/
theorem mIter_all_success (mname : String) :
    ∀ (rest hist : List WTask),
      (∀ x ∈ rest, x.outcome = Outcome.succeeded) →
      mIter mname rest.length
        { taskList := rest, currentTask := none, errorMsg := none
          history := hist } =
        { taskList := [], currentTask := none, errorMsg := none
          history := hist ++ rest }
  | [], hist, _ => by simp [mIter]
  | r :: rest, hist, h => by
    have hr : r.outcome = Outcome.succeeded := h r (by simp)
    have ih := mIter_all_success mname rest (hist ++ [r])
      (fun x hx => h x (by simp [hx]))
    have hmsg : outcomeMsg r.outcome = none := by
      rw [hr]
      rfl
    have hstep : machineStep mname
        { taskList := r :: rest, currentTask := none, errorMsg := none
          history := hist } =
        { taskList := rest, currentTask := none, errorMsg := none
          history := hist ++ [r] } := by
      rw [machineStep_cons, hmsg]
    rw [List.length_cons, mIter, hstep, ih]
    simp

/-- C1 (confirmed, on the latch-and-halt variant
docker-machine/cl_api.py): when the worker dequeues a task that reaches
a terminal raising state (`failed` or `timedOut` — an allowed-to-fail
task never produces `failed`), it latches an error message carrying the
task's name, every further worker iteration is a no-op (no task is
dequeued) for as long as the error stays latched, and after
`clearErrors` the worker resumes and executes the remaining queued
tasks in their queue order. -/
theorem latch_halt_clear (mname : String) (t : WTask)
    (rest hist0 : List WTask) (hfatal : isFatal t = true) :
    (∃ msg, machineStep mname
        { taskList := t :: rest, currentTask := none, errorMsg := none
          history := hist0 } =
        { taskList := rest, currentTask := some t
          errorMsg := some (errText mname t.name msg)
          history := hist0 ++ [t] })
  ∧ (∀ k, mIter mname k (machineStep mname
        { taskList := t :: rest, currentTask := none, errorMsg := none
          history := hist0 }) =
      machineStep mname
        { taskList := t :: rest, currentTask := none, errorMsg := none
          history := hist0 })
  ∧ ((∀ x ∈ rest, x.outcome = Outcome.succeeded) →
      mIter mname rest.length (clearErrors (machineStep mname
        { taskList := t :: rest, currentTask := none, errorMsg := none
          history := hist0 })) =
      { taskList := [], currentTask := none, errorMsg := none
        history := (hist0 ++ [t]) ++ rest }) := by
  obtain ⟨m, hm⟩ : ∃ m, outcomeMsg t.outcome = some m := by
    cases ht : t.outcome with
    | succeeded =>
      unfold isFatal at hfatal
      rw [ht] at hfatal
      simp at hfatal
    | failed nm c => exact ⟨"Task call failed.", rfl⟩
    | timedOut nm => exact ⟨"Task call timeout.", rfl⟩
  have hstep : machineStep mname
      { taskList := t :: rest, currentTask := none, errorMsg := none
        history := hist0 } =
      { taskList := rest, currentTask := some t
        errorMsg := some (errText mname t.name m)
        history := hist0 ++ [t] } := by
    rw [machineStep_cons, hm]
  refine ⟨⟨m, hstep⟩, ?_, ?_⟩
  · rw [hstep]
    exact mIter_fix mname _ rfl
  · intro hall
    rw [hstep]
    show mIter mname rest.length
      { taskList := rest, currentTask := none, errorMsg := none
        history := hist0 ++ [t] } = _
    exact mIter_all_success mname rest (hist0 ++ [t]) hall

/-- Fatal task for the C1 and C5 witnesses. -/
def cFatalTask : WTask := { name := "t1", outcome := Outcome.failed "t1" 1 }

/-- Succeeding task for the C1 witness. -/
def cOkTask : WTask := { name := "t2", outcome := Outcome.succeeded }

/-- Witness for `latch_halt_clear` at a concrete machine: after `t1`
fails, clearing errors lets the queued `t2` run to completion. -/
theorem latch_halt_clear_witness :
    isFatal cFatalTask = true
  ∧ mIter "m" 1 (clearErrors (machineStep "m"
      { taskList := cFatalTask :: [cOkTask], currentTask := none
        errorMsg := none, history := [] })) =
    { taskList := [], currentTask := none, errorMsg := none
      history := ([] ++ [cFatalTask]) ++ [cOkTask] } :=
  ⟨by decide,
    (latch_halt_clear "m" cFatalTask [cOkTask] [] (by decide)).2.2
      (by
        intro x hx
        rcases List.mem_singleton.mp hx with rfl
        rfl)⟩

/-- One-step equation of the queue worker: a dead worker does
nothing. -/
theorem workerStep_dead (pend : List WTask) (unf : Nat)
    (ex : List WTask) :
    workerStep
      { pending := pend, unfinished := unf, alive := false
        executed := ex } =
      { pending := pend, unfinished := unf, alive := false
        executed := ex } := rfl

/-- One-step equation of the queue worker at an empty queue
(`queue.Empty`: go around the loop). -/
theorem workerStep_nil (unf : Nat) (ex : List WTask) :
    workerStep
      { pending := [], unfinished := unf, alive := true
        executed := ex } =
      { pending := [], unfinished := unf, alive := true
        executed := ex } := rfl

/-- One-step equation of the queue worker at a nonempty queue: run the
head task; on an exception the thread dies with no `task_done`, on
success `task_done` decrements the unfinished counter. -/
theorem workerStep_cons (t : WTask) (rest : List WTask) (unf : Nat)
    (ex : List WTask) :
    workerStep
      { pending := t :: rest, unfinished := unf, alive := true
        executed := ex } =
      (if isFatal t then
        { pending := rest, unfinished := unf, alive := false
          executed := ex ++ [t] }
      else
        { pending := rest, unfinished := unf - 1, alive := true
          executed := ex ++ [t] }) := rfl

theorem workerStep_order (s : QState) :
    (workerStep s).executed ++ (workerStep s).pending =
      s.executed ++ s.pending := by
  obtain ⟨pend, unf, al, ex⟩ := s
  cases al
  · rfl
  · cases pend with
    | nil => rfl
    | cons t rest =>
      rw [workerStep_cons]
      by_cases hf : isFatal t = true
      · rw [if_pos hf]
        simp
      · rw [if_neg hf]
        simp

/-- The run invariant behind FIFO order: started tasks followed by
still-pending tasks always equals the full enqueue sequence. -/
theorem runQ_order :
    ∀ (evs : List QEvent) (s : QState),
      (runQ s evs).executed ++ (runQ s evs).pending =
        s.executed ++ s.pending ++ addedTasks evs
  | [], s => by simp [runQ, addedTasks]
  | QEvent.add t :: evs, s => by
    rw [runQ, runQ_order evs (addTask s t)]
    simp [addTask, addedTasks]
  | QEvent.step :: evs, s => by
    rw [runQ, runQ_order evs (workerStep s), workerStep_order]
    simp [addedTasks]

/-- C2 (confirmed): over every interleaving of `add_task` calls and
worker iterations, the sequence of executed tasks followed by the
still-queued tasks is exactly the enqueue sequence; in particular the
executed tasks are an initial segment of the enqueue order — each task
is started (and completes, steps being atomic) before any
later-enqueued task starts, and the queue is never reordered. -/
theorem fifo_order (evs : List QEvent) :
    (runQ initQ evs).executed ++ (runQ initQ evs).pending = addedTasks evs
  ∧ (runQ initQ evs).executed =
      (addedTasks evs).take (runQ initQ evs).executed.length := by
  have h := runQ_order evs initQ
  rw [show initQ.executed = [] from rfl, show initQ.pending = [] from rfl,
      List.nil_append, List.nil_append] at h
  refine ⟨h, ?_⟩
  rw [← h, List.take_left]

theorem fatalCount_append_single (ex : List WTask) (t : WTask) :
    fatalCount (ex ++ [t]) =
      fatalCount ex + (if isFatal t then 1 else 0) := by
  unfold fatalCount
  rw [List.filter_append, List.length_append]
  by_cases hf : isFatal t = true
  · simp [hf]
  · simp [hf]

theorem workerStep_unfinished (s : QState)
    (h : s.unfinished = s.pending.length + fatalCount s.executed) :
    (workerStep s).unfinished =
      (workerStep s).pending.length + fatalCount (workerStep s).executed := by
  obtain ⟨pend, unf, al, ex⟩ := s
  simp only at h
  cases al
  · rw [workerStep_dead]
    exact h
  · cases pend with
    | nil =>
      rw [workerStep_nil]
      exact h
    | cons t rest =>
      rw [workerStep_cons]
      simp only [List.length_cons] at h
      by_cases hf : isFatal t = true
      · rw [if_pos hf]
        show unf = rest.length + fatalCount (ex ++ [t])
        rw [fatalCount_append_single, if_pos hf]
        omega
      · rw [if_neg hf]
        show unf - 1 = rest.length + fatalCount (ex ++ [t])
        rw [fatalCount_append_single, if_neg hf]
        omega

/-- The queue's unfinished-task counter always equals the number of
still-pending tasks plus the number of executed tasks whose `call`
raised (whose `task_done` was never reached). -/
theorem runQ_unfinished :
    ∀ (evs : List QEvent) (s : QState),
      s.unfinished = s.pending.length + fatalCount s.executed →
      (runQ s evs).unfinished =
        (runQ s evs).pending.length + fatalCount (runQ s evs).executed
  | [], _, h => h
  | QEvent.add t :: evs, s, h => by
    rw [runQ]
    refine runQ_unfinished evs (addTask s t) ?_
    simp only [addTask, List.length_append, List.length_cons,
      List.length_nil]
    omega
  | QEvent.step :: evs, s, h => by
    rw [runQ]
    exact runQ_unfinished evs (workerStep s) (workerStep_unfinished s h)

/-- C5 (amended): `wait()` (i.e. `Queue.join`) returns exactly when the
queue is empty AND every executed task completed without raising; in
particular it returns only in the quiescent state, and when no task has
failed it returns as soon as the controller is quiescent.  (The
original claim's promise that `wait()` returns immediately whenever the
controller is quiescent fails after a task failure; see
`wait_blocked_when_quiescent`.) -/
theorem waitReturns_iff (evs : List QEvent) :
    waitReturns (runQ initQ evs) ↔
      (quiescentQ (runQ initQ evs) ∧
        fatalCount (runQ initQ evs).executed = 0) := by
  have h := runQ_unfinished evs initQ (by simp [initQ, fatalCount])
  unfold waitReturns quiescentQ
  rw [h]
  constructor
  · intro h0
    have h1 : (runQ initQ evs).pending.length = 0 ∧
        fatalCount (runQ initQ evs).executed = 0 := by omega
    exact ⟨List.length_eq_zero.mp h1.1, h1.2⟩
  · intro hq
    rw [hq.1, hq.2]
    simp

/-- C5 (counterexample): the claim states `wait()` returns immediately
when the controller is already quiescent.  Enqueue one failing task and
let the worker run it: the queue is empty and no task is running
(quiescent), but the failed task's `task_done` was never called, so the
unfinished counter is still 1 and `join` — hence `wait()` — does not
return. -/
theorem wait_blocked_when_quiescent :
    quiescentQ (runQ initQ [QEvent.add cFatalTask, QEvent.step])
  ∧ ¬ waitReturns (runQ initQ [QEvent.add cFatalTask, QEvent.step]) := by
  constructor
  · show (runQ initQ [QEvent.add cFatalTask, QEvent.step]).pending = []
    rfl
  · show ¬ ((runQ initQ [QEvent.add cFatalTask, QEvent.step]).unfinished = 0)
    decide

/-- Allocate a fresh list object (an explicit `params=[...]` built at a
call site). -/
def allocListRef (h : PyHeap) (init : List String) : Nat × PyHeap :=
  (h.cells.length, { cells := h.cells ++ [init] })

/-- C9 (code_bug evaluation): evaluating the constructors at the
failing input.  Two `DockerMachineTask()` constructions that omit
`params` alias the single default list allocated when the `def` was
evaluated: appending `"x"` through the first instance's `_params` is
visible through the second instance's `_params` (and is the state of
the shared default cell).  Likewise two docker-machine `DockerMachine`
instances alias the class-level `__taskList`: a task appended through
the first is visible through the second.  A task constructed with an
explicitly allocated fresh list does not touch the shared default. -/
theorem mutable_default_shared :
    readListRef
        (appendListRef moduleHeap (mkDockerMachineTask none).paramsRef "x")
        (mkDockerMachineTask none).paramsRef = ["x"]
  ∧ readListRef
        (appendListRef moduleHeap (mkDockerMachineTask none).paramsRef "x")
        defaultParamsRef = ["x"]
  ∧ readListRef
        (appendListRef moduleHeap mkDockerMachine.taskListRef "tsk")
        mkDockerMachine.taskListRef = ["tsk"]
  ∧ readListRef
        (appendListRef moduleHeap mkDockerMachine.taskHistoryRef "tsk")
        mkDockerMachine.taskHistoryRef = ["tsk"]
  ∧ readListRef
        (appendListRef (allocListRef moduleHeap []).2
          (mkDockerMachineTask (some (allocListRef moduleHeap []).1)).paramsRef
          "x")
        defaultParamsRef = [] :=
  ⟨by decide, by decide, by decide, by decide, by decide⟩

end DMA
